import Mathlib

/-!
Verification development for the Core module of MuzikManagur (`Core.py`).

The Python source is shallowly embedded: every function of the module that
the properties below mention is translated into an executable Lean
definition.

Modelling conventions, used throughout:

* Python strings are Lean `String`s; the string algorithms the module uses
  (`str.split`, `str.rsplit(sep, 1)`, `os.path.split`, single-character
  `str.replace`) are re-implemented structurally on `List Char` so that all
  definitions evaluate inside the kernel.
* The values appended to logs are strings or (nested) lists of such values;
  they are modelled by the inductive `PyObj`.  The timestamp that
  `CoreLog.date_stamper` prepends to each entry is wall-clock input with no
  bearing on any property below, so a log entry is modelled by its message
  part alone.
* The file system is split into the two views the code uses:
  a directory tree (`FsNode`, consumed by `induct_folder` through
  `os.listdir`/`os.path.isdir`/`os.path.isfile` on directory entries) and a
  flat record (`RFS`) of existing file paths, existing directory paths and
  the paths on which `os.makedirs`/`os.rename` raise (consumed by
  `rename_file`).
* Python exceptions are values: `CoreError` mirrors the module's exception
  class, and `PyErr` adds the builtin exceptions (`IndexError` from
  indexing past the end of a `split`/`rsplit` result, `ValueError` from
  unpacking a 1-element `rsplit` result into two variables) that escape the
  module's own `except CoreError` handlers.
* The one unbounded loop of the module (the collision probe of
  `rename_file`, `while rname:`) is modelled with an explicit fuel
  parameter; exhausted fuel is reported by a distinguished result (`none`,
  respectively `ReorderOutcome.outOfFuel`) that no theorem ever confuses
  with a behaviour of the code.
-/

/-- Log values: a Python string, or a Python list of such values (used for
chained error entries such as `['Recursive induct_folder() call failed for:
...', er.elog]`). -/
inductive PyObj where
  | str (s : String)
  | list (xs : List PyObj)

/-- The two streams of `CoreLog`: `_run_log` and `_error_log`, each a list
of appended entries (timestamps abstracted away, see the header). -/
structure CoreLog where
  run_log : List PyObj
  error_log : List PyObj

/-- The `CoreError` exception: carries its `_elog` list of entries. -/
structure CoreError where
  elog : List PyObj

/-- The `rlog` property setter for a non-`None` value: append one entry. -/
def pushR (lg : CoreLog) (v : PyObj) : CoreLog :=
  { lg with run_log := lg.run_log ++ [v] }

/-- The `elog` property setter for a non-`None` value: append one entry. -/
def pushE (lg : CoreLog) (v : PyObj) : CoreLog :=
  { lg with error_log := lg.error_log ++ [v] }

/-- `CoreLog.rlog = value` with the full `None`-reset semantics of the
property setter. -/
def set_rlog (lg : CoreLog) (v : Option PyObj) : CoreLog :=
  match v with
  | none => { lg with run_log := [] }
  | some x => pushR lg x

/-- `CoreLog.elog = value` with the full `None`-reset semantics of the
property setter. -/
def set_elog (lg : CoreLog) (v : Option PyObj) : CoreLog :=
  match v with
  | none => { lg with error_log := [] }
  | some x => pushE lg x

/-- `CoreLog.elogger(value)`: appends every element of `value` to the
error stream. -/
def elogger (lg : CoreLog) (v : List PyObj) : CoreLog :=
  { lg with error_log := lg.error_log ++ v }

/-- `CoreError(log)`: `_elog = []` then `self.elog = log` appends the one
stamped entry. -/
def mkCoreError (msg : String) : CoreError :=
  ⟨[.str msg]⟩

/-- `er.elog = value`: append one entry to the exception's own log. -/
def errPush (er : CoreError) (v : PyObj) : CoreError :=
  ⟨er.elog ++ [v]⟩

/-- Python builtin exceptions that can escape the module's code, next to
its own `CoreError`. -/
inductive PyErr where
  | core (er : CoreError)
  | indexError
  | valueError

/-! ### convert_human_time / format_human_time -/

/-- One `while value > radix: value -= radix; carry += 1` loop, made
structural with a fuel that is always instantiated with the initial value
(each iteration needs `radix < value`, so `value` itself bounds the
iteration count whenever `0 < radix`; both call sites use radix 60 or 24).
Returns the final value and the carry. -/
def drainAux (radix : Nat) : Nat → Nat → Nat × Nat
  | 0, v => (v, 0)
  | fuel + 1, v =>
    if radix < v then
      let r := drainAux radix fuel (v - radix)
      (r.1, r.2 + 1)
    else (v, 0)

/-- The three cascaded loops of `convert_human_time`, producing the list
`[days, hours, minutes, seconds]` that is handed to `format_human_time`. -/
def convert_components (time_length : Nat) : List Nat :=
  let s := drainAux 60 time_length time_length
  let m := drainAux 60 s.2 s.2
  let h := drainAux 24 m.2 m.2
  [h.2, h.1, m.1, s.1]

/-- The zero-padding used by `format_human_time`:
`if x < 10: out += '0'` followed by `out += str(x)`. -/
def pad2 (n : Nat) : String :=
  (if n < 10 then "0" else "") ++ toString n

/-- `format_human_time(h_time)` with its two index loops unrolled:
indices 0 and 1 (days, hours) are printed, each followed by ':', only when
positive; indices 2 and 3 (minutes, seconds) are always printed, with ':'
after index 2. -/
def format_human_time (h_time : List Nat) : String :=
  let t0 := h_time.getD 0 0
  let t1 := h_time.getD 1 0
  let t2 := h_time.getD 2 0
  let t3 := h_time.getD 3 0
  (if t0 > 0 then pad2 t0 ++ ":" else "") ++
  (if t1 > 0 then pad2 t1 ++ ":" else "") ++
  pad2 t2 ++ ":" ++ pad2 t3

/-- `convert_human_time(time_length)`. -/
def convert_human_time (time_length : Nat) : String :=
  format_human_time (convert_components time_length)

/-! ### String helpers (Python string/os.path primitives) -/

/-- Splits a character list at its last occurrence of `c`:
`some (before, after)` without the separator, or `none` when `c` does not
occur.  Backs both `str.rsplit(sep, 1)` and `os.path.split`. -/
def splitLastChar (c : Char) : List Char → Option (List Char × List Char)
  | [] => none
  | ch :: rest =>
    match splitLastChar c rest with
    | some (a, b) => some (ch :: a, b)
    | none => if ch == c then some ([], rest) else none

/-- `s.rsplit('.', 1)`: a two-element list when '.' occurs in `s`,
otherwise the one-element list `[s]`. -/
def pyRsplitDot (s : String) : List String :=
  match splitLastChar '.' s.data with
  | some (a, b) => [⟨a⟩, ⟨b⟩]
  | none => [s]

/-- `os.path.split(p)`: everything before the last '/' (without it), and
everything after.  (The repository only ever passes relative paths, so the
special root-path behaviour of `posixpath` is irrelevant.) -/
def os_path_split (p : String) : String × String :=
  match splitLastChar '/' p.data with
  | some (h, t) => (⟨h⟩, ⟨t⟩)
  | none => ("", p)

/-- `s.split(c)` on character lists: head piece plus the remaining
pieces. -/
def splitAllChar (c : Char) : List Char → List Char × List (List Char)
  | [] => ([], [])
  | ch :: rest =>
    let r := splitAllChar c rest
    if ch == c then ([], r.1 :: r.2) else (ch :: r.1, r.2)

/-- `s.split(c)` as a (never empty) list of strings. -/
def pySplitAll (c : Char) (s : String) : List String :=
  let r := splitAllChar c s.data
  (⟨r.1⟩ : String) :: r.2.map (fun l => (⟨l⟩ : String))

/-- Single-character `s.replace(c, '_')`, i.e. a character map. -/
def charReplace (s : String) (c : Char) : String :=
  ⟨s.data.map (fun ch => if ch == c then '_' else ch)⟩

/-- `MuzikArkive.illegal_name_characters`. -/
def illegal_name_characters : List Char :=
  ['/', '\\', '?', '%', '*', ':', '|', '"', '<', '>']

/-- `MuzikArkive.file_types`. -/
def file_types : List String :=
  ["opus", "ogg", "flac", "mp3", "wma", "wav"]

/-- `Song.vorbis_tags`. -/
def vorbis_tags : List String := ["opus", "ogg", "flac"]

/-- `Song.id3_tags`. -/
def id3_tags : List String := ["mp3"]

/-- The sanitisation loop of `filename_formatter`: for each illegal
character, `if c in sub_name: sub_name = sub_name.replace(c, '_')`. -/
def sanitize_chars : List Char → String → String
  | [], s => s
  | c :: cs, s =>
    sanitize_chars cs (if s.data.contains c then charReplace s c else s)

/-- The sanitisation loop of `rename_file`: the same replacement applied to
the destination's filename component `tail`, but logging
`illegal[i] + '  was removed from ' + destination` for each character that
occurred. -/
def sanitize_tail_log (destination : String) :
    List Char → String → CoreLog → String × CoreLog
  | [], tail, lg => (tail, lg)
  | c :: cs, tail, lg =>
    if tail.data.contains c then
      sanitize_tail_log destination cs (charReplace tail c)
        (pushR lg (.str ((⟨[c]⟩ : String) ++ "  was removed from " ++ destination)))
    else
      sanitize_tail_log destination cs tail lg

/-! ### MuzikArkive.induct_folder -/

/-- A directory entry as `induct_folder` observes it through `os.listdir`,
`os.path.isdir` and `os.path.isfile`: a sub-directory (with whether its own
`os.listdir` succeeds, and its entries), a regular file, or anything else
(skipped by the code). -/
inductive FsNode where
  | dir (name : String) (readable : Bool) (children : List FsNode)
  | file (name : String)
  | other (name : String)

/-- Accumulator state threaded through the induction: the shared `folders`
and `files` lists and the `alog`. -/
abbrev IState := List String × List String × CoreLog

/-- The extension test of the induction filter: `tails = tail.split('.')`
then `tails[len(tails) - 1]` (for a dot-free name this is the whole
name). -/
def induct_ext (name : String) : String :=
  (pySplitAll '.' name).getLastD ""

/-- One iteration of the `for` body of `induct_folder`, on one directory
entry.  A sub-directory is appended to `folders` and then recursively
inducted; the recursive call is inlined here: when the sub-directory's
`os.listdir` succeeds it contributes its two `rlog` prelude entries, its
own loop over its entries, and the closing `'Finished induction.'` entry;
when it fails, the recursive call raises
`CoreError('Failed to load directory: ' + fullpath)` before touching the
shared lists, and the parent's `except` block appends the chained entry
`['Recursive induct_folder() call failed for: ' + fullpath, er.elog]`
to the error log and carries on.  A regular file is appended to `files`
when its extension passes the filter; anything else is skipped. -/
def induct_child (path : String) : FsNode → IState → IState
  | .dir n r sub, st =>
    let fullpath := path ++ n ++ "/"
    let folders1 := st.1 ++ [fullpath]
    if r then
      let lg1 := pushR st.2.2 (.str ("Beginning to induct " ++ fullpath))
      let lg2 := pushR lg1 (.str (toString sub.length ++ " items to induct."))
      let st2 := loop fullpath sub (folders1, st.2.1, lg2)
      (st2.1, st2.2.1, pushR st2.2.2 (.str "Finished induction."))
    else
      (folders1, st.2.1,
        pushE st.2.2 (.list
          [.str ("Recursive induct_folder() call failed for: " ++ fullpath),
           .list [.str ("Failed to load directory: " ++ fullpath)]]))
  | .file n, st =>
    if file_types.contains (induct_ext n) then
      (st.1, st.2.1 ++ [path ++ n], st.2.2)
    else st
  | .other _, st => st
where
  /-- The `for i in range(0, len(dir_contents))` loop over a directory's
  entries. -/
  loop (path : String) : List FsNode → IState → IState
  | [], st => st
  | c :: rest, st => loop path rest (induct_child path c st)

/-- `MuzikArkive.induct_folder(directory, alog, fold, file)`.  `isStr`
is whether the Python `directory` argument is a string (the code's first
guard); `readable` is whether `os.listdir(directory)` succeeds; `listing`
its entries.  Raising is returning `Except.error`: a raised call hands no
folders/files back to its caller. -/
def induct_folder (isStr : Bool) (directory : String) (readable : Bool)
    (listing : List FsNode) (alog : CoreLog)
    (fold file : Option (List String)) : Except CoreError IState :=
  if !isStr then
    .error (mkCoreError "Directory was not a string value, aborting.")
  else if !readable then
    .error (mkCoreError ("Failed to load directory: " ++ directory))
  else
    let folders := fold.getD []
    let files := file.getD []
    let lg1 := pushR alog (.str ("Beginning to induct " ++ directory))
    let lg2 := pushR lg1 (.str (toString listing.length ++ " items to induct."))
    let st := induct_child.loop directory listing (folders, files, lg2)
    .ok (st.1, st.2.1, pushR st.2.2 (.str "Finished induction."))

/-! ### MuzikArkive.rename_file -/

/-- The flat file-system view used by `rename_file`: existing regular
files, existing directories (stored with their trailing '/'), and the
paths on which `os.makedirs` respectively `os.rename` raise `OSError`. -/
structure RFS where
  files : List String
  dirs : List String
  mkdirBlocked : List String
  renameBlocked : List String

/-- `os.path.isfile`. -/
def os_isfile (fs : RFS) (p : String) : Bool :=
  fs.files.contains p

/-- `os.rename(src, dst)` when it succeeds: `src` stops existing, `dst`
starts existing. -/
def os_rename (fs : RFS) (src dst : String) : RFS :=
  { fs with files := fs.files.erase src ++ [dst] }

/-- The collision-probe candidate for index `n`: with
`head, tail = destination.rsplit('.', 1)`, the path
`head + '[' + str(n) + '].' + tail` (and the destination itself in the
dot-free case, in which the code's unpacking raises before probing). -/
def collisionCand (destination : String) (n : Nat) : String :=
  match pyRsplitDot destination with
  | [h, t] => h ++ "[" ++ toString n ++ "]." ++ t
  | _ => destination

/-- The `while rname:` probe loop of `rename_file`, starting at `i`:
if the candidate for `i` is not an existing file, move there
(`os.rename`, whose failure raises `CoreError('os.rename() Failed.')`),
else `i += 1`.  `none` means the fuel ran out before the loop finished. -/
def collision_loop (source head tail : String) :
    Nat → Nat → RFS → Option (RFS × Except PyErr String)
  | 0, _, _ => none
  | fuel + 1, i, fs =>
    let cand := head ++ "[" ++ toString i ++ "]." ++ tail
    if !os_isfile fs cand then
      if fs.renameBlocked.contains cand then
        some (fs, .error (.core (mkCoreError "os.rename() Failed.")))
      else
        some (os_rename fs source cand, .ok cand)
    else
      collision_loop source head tail fuel (i + 1) fs

/-- `MuzikArkive.rename_file(source, destination, alog)`.  Both arguments
are strings here, so the two `type(...) is str` guards of the code are
statically satisfied.  The returned string is the path the file was moved
to; `some (.error e)` is a raised exception; `none` is exhausted probe
fuel.  Note that the code sanitises `tail` (logging every substitution)
and then never uses the sanitised value: the existence test, the direct
move and the collision candidates are all built from the original
`destination`. -/
def rename_file (fuel : Nat) (fs : RFS) (source destination : String)
    (alog : CoreLog) : RFS × CoreLog × Option (Except PyErr String) :=
  if !os_isfile fs source then
    (fs, alog, some (.error (.core (mkCoreError (source ++ " is not a valid file.")))))
  else
    let head := (os_path_split destination).1
    if !fs.dirs.contains (head ++ "/") && fs.mkdirBlocked.contains (head ++ "/") then
      (fs, alog, some (.error (.core
        (mkCoreError ("Failed to create new directory: " ++ (head ++ "/"))))))
    else
      let fs1 := if !fs.dirs.contains (head ++ "/") then
        { fs with dirs := fs.dirs ++ [head ++ "/"] } else fs
      let psan := sanitize_tail_log destination illegal_name_characters
        (os_path_split destination).2 alog
      let lg := psan.2
      if !os_isfile fs1 destination then
        if fs1.renameBlocked.contains destination then
          (fs1, lg, some (.error (.core (mkCoreError "os.rename() Failed."))))
        else
          (os_rename fs1 source destination, lg, some (.ok destination))
      else
        match pyRsplitDot destination with
        | [h2, t2] =>
          match collision_loop source h2 t2 fuel 1 fs1 with
          | none => (fs1, lg, none)
          | some (fs2, out) => (fs2, lg, some out)
        | _ => (fs1, lg, some (.error .valueError))

/-! ### taglib collaborator, Song.tag_extractor, filename_formatter -/

/-- What `taglib.File` exposes of one audio file: the tag mapping (each
key to its list of values) and the header numbers. -/
structure TagFile where
  tags : List (String × List String)
  length : Nat
  channels : Nat
  bitrate : Nat
  sampleRate : Nat

/-- The taglib collaborator: the files it can open, by path.  A path that
is absent raises on `taglib.File(path)`. -/
abbrev TagDB := List (String × TagFile)

/-- `song.tags.get(key, '')`: the value list when the key is present, the
default `''` otherwise. -/
def tags_get (tags : List (String × List String)) (key : String) : PyObj :=
  match tags.lookup key with
  | some vs => .list (vs.map .str)
  | none => .str ""

/-- `self.file_type = self.filename.rsplit('.', 1)[1]` from
`Song.__init__`: an `IndexError` when the path has no '.'. -/
def song_file_type (a_file : String) : Except PyErr String :=
  match pyRsplitDot a_file with
  | [_, t] => .ok t
  | _ => .error .indexError

/-- The fields `Song.tag_extractor` assigns (the common tags, the
format-dependent tags, and the header-derived strings). -/
structure SongMeta where
  album_artist : PyObj
  artist : PyObj
  album : PyObj
  title : PyObj
  track_number : PyObj
  track_total : PyObj
  disc_number : PyObj
  genre : PyObj
  date : PyObj
  description : PyObj
  composer : PyObj
  performer : PyObj
  copyright : PyObj
  contact : PyObj
  encoded_by : PyObj
  length : String
  channels : String
  bit_rate : String
  sample_rate : String

/-- The fields shared by both tag families (set before and after the
format branch), plus the header fields. -/
def commonMeta (song : TagFile) : SongMeta where
  album_artist := tags_get song.tags "ALBUMARTIST"
  artist := tags_get song.tags "ARTIST"
  album := tags_get song.tags "ALBUM"
  title := tags_get song.tags "TITLE"
  track_number := .str ""
  track_total := .str ""
  disc_number := tags_get song.tags "DISCNUMBER"
  genre := tags_get song.tags "GENRE"
  date := tags_get song.tags "DATE"
  description := .str ""
  composer := tags_get song.tags "COMPOSER"
  copyright := tags_get song.tags "COPYRIGHT"
  performer := .str ""
  contact := .str ""
  encoded_by := .str ""
  length := convert_human_time song.length
  channels := toString song.channels
  bit_rate := toString song.bitrate
  sample_rate := toString song.sampleRate

/-- `Song.tag_extractor`, returning the extraction outcome together with
whether a taglib handle was opened and whether `song.close()` was reached.
The id3 branch mirrors
`track_numbers = song.tags.get('TRACKNUMBER', '')` followed by
`track_numbers[0].split('/')[0]` and `...[1]`: indexing raises
`IndexError` when the key is absent (default `''`), when its value list is
empty, or when the value contains no '/'; `song.close()` sits after the
whole `else:` block, so none of these error exits reaches it. -/
def tag_extractor (db : TagDB) (filename file_type : String) :
    Except PyErr SongMeta × Bool × Bool :=
  match db.lookup filename with
  | none =>
    (.error (.core (mkCoreError "taglib.File() failed in tag_extractor()")), false, false)
  | some song =>
    if vorbis_tags.contains file_type then
      (.ok { commonMeta song with
        track_number := tags_get song.tags "TRACKNUMBER"
        track_total := tags_get song.tags "TRACKTOTAL"
        description := tags_get song.tags "DESCRIPTION"
        performer := tags_get song.tags "PERFORMER"
        contact := tags_get song.tags "CONTACT"
        encoded_by := tags_get song.tags "ENCODED-BY" }, true, true)
    else if id3_tags.contains file_type then
      match song.tags.lookup "TRACKNUMBER" with
      | some (v0 :: _) =>
        (match pySplitAll '/' v0 with
        | a :: b :: _ =>
          (.ok { commonMeta song with
            track_number := .list [.str a]
            track_total := .list [.str b]
            description := tags_get song.tags "COMMENT"
            performer := tags_get song.tags "ORIGINALARTIST"
            contact := tags_get song.tags "URL"
            encoded_by := tags_get song.tags "ENCODEDBY" }, true, true)
        | _ => (.error .indexError, true, false))
      | _ => (.error .indexError, true, false)
    else
      (.ok (commonMeta song), true, true)

/-- The token loop of `filename_formatter`: for each token, try
`song.tags[token][0]` (a lookup failure or an empty value list is caught
by the bare `except` and falls back to the token as a literal); a found
value is passed through the illegal-character loop before being
appended. -/
def format_tokens (tags : List (String × List String)) :
    List String → String → String
  | [], acc => acc
  | tok :: rest, acc =>
    match tags.lookup tok with
    | some (v :: _) =>
      format_tokens tags rest (acc ++ sanitize_chars illegal_name_characters v)
    | _ => format_tokens tags rest (acc ++ tok)

/-- `MuzikArkive.filename_formatter(source, destination, file,
order_format)`.  `source` is unused by the code.  After the token loop,
`'.' + file.rsplit('.', 1)[1]` is appended: for a dot-free `file` the
index raises `IndexError` (uncaught — and before `song.close()`). -/
def filename_formatter (db : TagDB) (source destination file : String)
    (order_format : List String) : Except PyErr String :=
  match db.lookup file with
  | none => .error (.core (mkCoreError "taglib.File() failed."))
  | some song =>
    let new_name := format_tokens song.tags order_format destination
    match pyRsplitDot file with
    | [_, ext] => .ok (new_name ++ "." ++ ext)
    | _ => .error .indexError

/-! ### MuzikArkive.reorder_folder -/

/-- One line of user input at the circuit-breaker prompt: `'Y'`, `'N'`,
`'S'`, or anything else (which just re-prompts). -/
inductive Choice where
  | resume
  | abort
  | showLog
  | invalid

/-- The `while True:` input loop of the circuit breaker: consume inputs
until a `'Y'` (`some true`: reset and continue) or `'N'` (`some false`:
raise the user-abort error); `'S'` prints the error log and re-prompts and
any other input re-prompts, neither changing any state.  An exhausted
input list (`none`) models a session in which the prompt never gets a
terminal answer: the code stays suspended in the loop. -/
def breaker_prompt : List Choice → Option Bool × List Choice
  | [] => (none, [])
  | c :: rest =>
    match c with
    | .resume => (some true, rest)
    | .abort => (some false, rest)
    | _ => breaker_prompt rest

/-- How a `reorder_folder` run ends. -/
inductive ReorderOutcome where
  | completed
  | raised (e : PyErr)
  | suspended
  | outOfFuel

/-- The observable final state of a `reorder_folder` run: the file system,
the log (whose mutations persist even past a raise, since `alog` is shared
with the caller), the number of circuit-breaker activations, the final
value of the failure counter `er_count`, and how the run ended. -/
structure ReorderResult where
  fs : RFS
  log : CoreLog
  trips : Nat
  errors : Nat
  outcome : ReorderOutcome

/-- What processing one file leaves behind: the next loop state, a raised
exception that escapes the per-file `except CoreError` handlers, or probe
fuel exhaustion inside `rename_file`. -/
inductive StepResult where
  | next (fs : RFS) (lg : CoreLog) (er_count : Nat)
  | raised (fs : RFS) (lg : CoreLog) (e : PyErr)
  | outOfFuel (fs : RFS) (lg : CoreLog)

/-- The log carried by a per-file step result, whatever the outcome. -/
def step_log : StepResult → CoreLog
  | .next _ lg _ => lg
  | .raised _ lg _ => lg
  | .outOfFuel _ lg => lg

/-- The body of the per-file `for` loop of `reorder_folder` (without the
circuit-breaker check): format a new name — a `CoreError` increments
`er_count` and appends the numbered error entry plus the exception's own
entries (`alog.elogger(er.elog)`) — then rename, with the same handling;
any non-`CoreError` exception propagates. -/
def process_file (fuel : Nat) (db : TagDB) (source destination : String)
    (order_format : List String) (f : String) (fs : RFS) (lg : CoreLog)
    (er_count : Nat) : StepResult :=
  let lg := pushR lg (.str ("Formatting new name for " ++ f))
  match filename_formatter db source destination f order_format with
  | .error (.core er) =>
    let e1 := er_count + 1
    let lg := pushE lg (.str ("filename_formatter() failed on file: " ++ f
      ++ "   Error count at: " ++ toString e1))
    .next fs (elogger lg er.elog) e1
  | .error pe => .raised fs lg pe
  | .ok new_name =>
    let lg := pushR lg (.str ("Renaming " ++ f))
    match rename_file fuel fs f new_name lg with
    | (fs1, lg1, some (.ok _)) => .next fs1 lg1 er_count
    | (fs1, lg1, some (.error (.core er))) =>
      let e1 := er_count + 1
      let lg1 := pushE lg1 (.str ("rename_file() failed on file: " ++ f
        ++ "   Error count at: " ++ toString e1))
      .next fs1 (elogger lg1 er.elog) e1
    | (fs1, lg1, some (.error pe)) => .raised fs1 lg1 pe
    | (fs1, lg1, none) => .outOfFuel fs1 lg1

/-- The per-file loop of `reorder_folder`: process each file and, after
each iteration, run the circuit-breaker check `if er_count > 10:` — a
`'Y'` answer resets the counter to 0 and resumes, `'N'` raises
`CoreError('User terminated:  Multiple rename fails.')`, and an input list
without a terminal answer leaves the run suspended at the prompt.  On
normal exit the closing `'reorder_folder completed.'` entry is logged. -/
def reorder_loop (fuel : Nat) (db : TagDB) (source destination : String)
    (order_format : List String) :
    List String → RFS → CoreLog → List Choice → Nat → Nat → ReorderResult
  | [], fs, lg, _, trips, er =>
    ⟨fs, pushR lg (.str "reorder_folder completed."), trips, er, .completed⟩
  | f :: rest, fs, lg, oracle, trips, er =>
    match process_file fuel db source destination order_format f fs lg er with
    | .raised fs1 lg1 e => ⟨fs1, lg1, trips, er, .raised e⟩
    | .outOfFuel fs1 lg1 => ⟨fs1, lg1, trips, er, .outOfFuel⟩
    | .next fs1 lg1 er1 =>
      if er1 > 10 then
        match breaker_prompt oracle with
        | (some true, oracle1) =>
          reorder_loop fuel db source destination order_format
            rest fs1 lg1 oracle1 (trips + 1) 0
        | (some false, _) =>
          ⟨fs1, lg1, trips + 1, er1,
            .raised (.core (mkCoreError "User terminated:  Multiple rename fails."))⟩
        | (none, _) => ⟨fs1, lg1, trips + 1, er1, .suspended⟩
      else
        reorder_loop fuel db source destination order_format
          rest fs1 lg1 oracle trips er1

/-- `MuzikArkive.reorder_folder(source, destination, alog, order_format)`.
`readable`/`listing` describe `os.listdir(source)` for the induction step,
whose failure is re-raised with `'induct_folder() failed.'` chained onto
the exception's log; `oracle` supplies the circuit-breaker inputs. -/
def reorder_folder (fuel : Nat) (db : TagDB) (fs : RFS) (source : String)
    (readable : Bool) (listing : List FsNode) (destination : String)
    (alog : CoreLog) (order_format : List String) (oracle : List Choice) :
    ReorderResult :=
  let lg := pushR alog (.str "reorder_folder() calling induct_folder().")
  match induct_folder true source readable listing lg none none with
  | .error er =>
    ⟨fs, lg, 0, 0, .raised (.core (errPush er (.str "induct_folder() failed.")))⟩
  | .ok (_, files, lg1) =>
    let lg2 := pushR lg1 (.str (toString files.length ++ " files to re-order."))
    reorder_loop fuel db source destination order_format files fs lg2 oracle 0 0

/-! ### Specification-side definitions

These are stated from the specification's wording (not from the code) and
serve as the comparison side of the refinement theorems below. -/

/-- Whether every directory in a forest is readable. -/
def all_readable : FsNode → Bool
  | .dir _ r sub => r && list_readable sub
  | _ => true
where
  /-- `all_readable` over a list of entries. -/
  list_readable : List FsNode → Bool
  | [] => true
  | c :: rest => all_readable c && list_readable rest

/-- The pure depth-first pre-order enumeration of one entry: the pair of
the folder paths and the supported-format file paths it contributes, with
a folder listed immediately before everything inside it. -/
def induct_spec (path : String) : FsNode → List String × List String
  | .dir n _ sub =>
    let inner := induct_spec_list (path ++ n ++ "/") sub
    ((path ++ n ++ "/") :: inner.1, inner.2)
  | .file n =>
    ([], if file_types.contains (induct_ext n) then [path ++ n] else [])
  | .other _ => ([], [])
where
  /-- `induct_spec` over a list of entries, results concatenated in entry
  order. -/
  induct_spec_list (path : String) : List FsNode → List String × List String
  | [] => ([], [])
  | c :: rest =>
    let h := induct_spec path c
    let t := induct_spec_list path rest
    (h.1 ++ t.1, h.2 ++ t.2)

/-- The extension of a file name as the claim wording defines it: the
substring after the last '.', which does not exist for a dot-free name. -/
def spec_extension (name : String) : Option String :=
  match splitLastChar '.' name.data with
  | some (_, aft) => some (⟨aft⟩ : String)
  | none => none

/-- Sanitisation as the specification words it: every illegal filename
character replaced by an underscore. -/
def sanitize_value (s : String) : String :=
  ⟨s.data.map (fun ch => if ch ∈ illegal_name_characters then '_' else ch)⟩

/-- One template token as the specification words it: a token whose key is
present in the tag record with a value contributes that value sanitised;
any other token contributes itself verbatim. -/
def spec_token (tags : List (String × List String)) (tok : String) : String :=
  match tags.lookup tok with
  | some (v :: _) => sanitize_value v
  | _ => tok

/-- Concatenation of a list of strings, in order. -/
def concatStrings : List String → String
  | [] => ""
  | s :: rest => s ++ concatStrings rest

/-- The formatted name as the specification words it: the destination
root, the token contributions in template order, then '.' plus the source
file's extension. -/
def spec_format (destinationRoot : String) (tags : List (String × List String))
    (template : List String) (ext : String) : String :=
  destinationRoot ++ concatStrings (template.map (spec_token tags)) ++ "." ++ ext

/-- The weighted sum of a `[days, hours, minutes, seconds]` component
list. -/
def weightedSum (l : List Nat) : Nat :=
  86400 * l.getD 0 0 + 3600 * l.getD 1 0 + 60 * l.getD 2 0 + l.getD 3 0

/-! ### Lemmas about the while-loops of convert_human_time -/

/-- With enough fuel (the initial value suffices), one drain loop
preserves the weighted total and leaves a final value of at most the
radix. -/
theorem drainAux_spec (radix : Nat) (hr : 0 < radix) :
    ∀ fuel v, v ≤ fuel →
      (drainAux radix fuel v).1 + radix * (drainAux radix fuel v).2 = v ∧
      (drainAux radix fuel v).1 ≤ radix := by
  intro fuel
  induction fuel with
  | zero =>
    intro v hv
    have : v = 0 := Nat.le_zero.mp hv
    subst this
    simp [drainAux]
  | succ n ih =>
    intro v hv
    by_cases h : radix < v
    · have h2 := ih (v - radix) (by omega)
      rcases hd : drainAux radix n (v - radix) with ⟨a, b⟩
      rw [hd] at h2
      simp only [drainAux, if_pos h, hd]
      have hmul : radix * (b + 1) = radix * b + radix := by ring
      refine ⟨?_, h2.2⟩
      rw [hmul]
      have h21 := h2.1
      generalize radix * b = t at h21 ⊢
      omega
    · simp only [drainAux, if_neg h]
      omega

/-- A value already at or below the radix is left untouched with zero
carry, for any fuel. -/
theorem drainAux_of_le {radix v : Nat} (h : v ≤ radix) :
    ∀ fuel, drainAux radix fuel v = (v, 0) := by
  intro fuel
  cases fuel with
  | zero => rfl
  | succ n => simp only [drainAux, if_neg (by omega : ¬ radix < v)]

/-- Appending the empty string on the left is the identity. -/
theorem str_nil_append (s : String) : "" ++ s = s := by
  apply String.ext
  simp [String.data_append]

/-- C6 counterexample: at 90000 seconds the code's loops stop at
`hours = 24` (the guard is `> 24`, not `>= 24`), so the components are
`[0, 24, 59, 60]` and the printed string `"24:59:60"` contains no days
component, contrary to the claim that `convert_human_time(90000)` includes
one. -/
theorem C6_counterexample_90000 :
    convert_components 90000 = [0, 24, 59, 60] ∧
    convert_human_time 90000 = "24:59:60" := by
  set_option maxRecDepth 100000 in
  exact ⟨rfl, rfl⟩

/-- C6 amended: for every non-negative duration `d` the components of
`convert_human_time d` weighted by 86400/3600/60/1 sum back to `d`;
`convert_human_time 45 = "00:45"`; `convert_human_time 3725 = "01:02:05"`;
and for every `d` under one hour the output is exactly of the form
`"MM:SS"` (two zero-padded fields).  The days-component claim for 90000 is
dropped: because each unit is reduced only while strictly greater than its
radix, 90000 seconds yields hours = 24 exactly and no days component (see
the counterexample). -/
theorem C6_human_time_amended :
    (∀ d : Nat, weightedSum (convert_components d) = d) ∧
    convert_human_time 45 = "00:45" ∧
    convert_human_time 3725 = "01:02:05" ∧
    (∀ d : Nat, d < 3600 → ∃ m s, m ≤ 59 ∧ s ≤ 60 ∧ 60 * m + s = d ∧
      convert_human_time d = pad2 m ++ ":" ++ pad2 s) := by
  refine ⟨?_, ?_, ?_, ?_⟩
  · intro d
    have hs := drainAux_spec 60 (by norm_num) d d le_rfl
    rcases h1 : drainAux 60 d d with ⟨s, m0⟩
    rw [h1] at hs
    have hm := drainAux_spec 60 (by norm_num) m0 m0 le_rfl
    rcases h2 : drainAux 60 m0 m0 with ⟨m, h0⟩
    rw [h2] at hm
    have hh := drainAux_spec 24 (by norm_num) h0 h0 le_rfl
    rcases h3 : drainAux 24 h0 h0 with ⟨hr, dy⟩
    rw [h3] at hh
    have e1 := hs.1
    have e2 := hm.1
    have e3 := hh.1
    simp only [weightedSum, convert_components, h1, h2, h3, List.getD_cons_zero,
      List.getD_cons_succ]
    omega
  · rfl
  · rfl
  · intro d hd
    have hs := drainAux_spec 60 (by norm_num) d d le_rfl
    rcases h1 : drainAux 60 d d with ⟨s, m⟩
    rw [h1] at hs
    have hm59 : m ≤ 59 := by
      have := hs.1
      omega
    refine ⟨m, s, hm59, hs.2, by omega, ?_⟩
    simp only [convert_human_time, convert_components, h1]
    rw [drainAux_of_le (by omega : m ≤ 60)]
    rw [drainAux_of_le (by omega : (0 : Nat) ≤ 24)]
    simp [format_human_time, str_nil_append]

/-- C6 witness: the amended theorem applied at the concrete duration 125
(= 2 minutes 5 seconds). -/
theorem C6_human_time_witness :
    weightedSum (convert_components 125) = 125 ∧
    (∃ m s, m ≤ 59 ∧ s ≤ 60 ∧ 60 * m + s = 125 ∧
      convert_human_time 125 = pad2 m ++ ":" ++ pad2 s) :=
  ⟨C6_human_time_amended.1 125,
   C6_human_time_amended.2.2.2 125 (by norm_num)⟩

/-! ### Sanitisation: the per-character replacement loops equal the
specification's single pass -/

/-- Appending the empty string on the right is the identity. -/
theorem str_append_nil (s : String) : s ++ "" = s := by
  apply String.ext
  simp [String.data_append]

/-- String concatenation is associative. -/
theorem str_append_assoc (a b c : String) : a ++ b ++ c = a ++ (b ++ c) := by
  apply String.ext
  simp [String.data_append]

/-- The replacement loop is the map of the chained single-character
substitutions. -/
theorem sanitize_chars_eq (cs : List Char) :
    ∀ s : String, sanitize_chars cs s =
      ⟨s.data.map (fun ch => cs.foldl (fun a c => if a == c then '_' else a) ch)⟩ := by
  induction cs with
  | nil =>
    intro s
    simp only [sanitize_chars, List.foldl_nil]
    rw [List.map_id']
  | cons c cs ih =>
    intro s
    by_cases hc : s.data.contains c
    · simp only [sanitize_chars, hc, if_true, ih, charReplace, List.map_map]
      rfl
    · simp only [sanitize_chars, hc, if_false, ih]
      congr 1
      refine List.map_congr_left ?_
      intro ch hch
      have hcm : c ∉ s.data := by simpa using hc
      have hne : ch ≠ c := fun he => hcm (he ▸ hch)
      simp [List.foldl_cons, hne]

/-- The chained substitutions hit a character exactly when it occurs in
the character list. -/
theorem foldl_subst_eq (cs : List Char) :
    ∀ ch : Char, cs.foldl (fun a c => if a == c then '_' else a) ch =
      if ch ∈ cs then '_' else ch := by
  induction cs with
  | nil => intro ch; simp
  | cons c cs ih =>
    intro ch
    by_cases h : ch = c
    · subst h
      simp only [List.foldl_cons, beq_self_eq_true, if_true, ih]
      simp
    · simp only [List.foldl_cons, if_neg (by simp [h] : ¬ (ch == c) = true), ih,
        List.mem_cons]
      simp [h]

/-- The illegal-character loop of the code equals the specification's
sanitisation. -/
theorem sanitize_chars_spec (s : String) :
    sanitize_chars illegal_name_characters s = sanitize_value s := by
  rw [sanitize_chars_eq]
  unfold sanitize_value
  apply String.ext
  refine List.map_congr_left ?_
  intro ch _
  exact foldl_subst_eq _ ch

/-- The token loop as built from the left: the accumulator followed by the
specification's per-token contributions. -/
theorem format_tokens_eq (tags : List (String × List String)) :
    ∀ (ts : List String) (acc : String),
      format_tokens tags ts acc = acc ++ concatStrings (ts.map (spec_token tags)) := by
  intro ts
  induction ts with
  | nil => intro acc; simp [format_tokens, concatStrings, str_append_nil]
  | cons tok rest ih =>
    intro acc
    rcases h : tags.lookup tok with _ | ⟨_ | ⟨v, vs⟩⟩
    · simp only [format_tokens, h, ih, List.map_cons, concatStrings, spec_token]
      rw [str_append_assoc]
    · simp only [format_tokens, h, ih, List.map_cons, concatStrings, spec_token]
      rw [str_append_assoc]
    · simp only [format_tokens, h, ih, List.map_cons, concatStrings, spec_token,
        sanitize_chars_spec]
      rw [str_append_assoc]

/-- C5 confirmed: `filename_formatter` starts from the destination root
and processes template tokens left to right — a token present in the
file's tags with a value is appended with every illegal filename character
of the value replaced by underscore, any other token is appended verbatim
— and then appends '.' plus the source file's extension unchanged, exactly
as `spec_format` (stated from the specification's wording) describes. -/
theorem C5_filename_formatter (db : TagDB) (source destination file : String)
    (order_format : List String) (song : TagFile) (stem ext : String)
    (hdb : db.lookup file = some song)
    (hsplit : pyRsplitDot file = [stem, ext]) :
    filename_formatter db source destination file order_format =
      .ok (spec_format destination song.tags order_format ext) := by
  simp only [filename_formatter, hdb, hsplit, format_tokens_eq, spec_format,
    str_append_assoc]

/-- C5 witness: with template `["ARTIST", "/", "TITLE"]`, ARTIST `"A/B"`
and TITLE `"Song"`, the formatter produces
`destinationRoot ++ "A_B/Song." ++ extension`: the '/' inside the tag
value is sanitised while the literal '/' of the template survives. -/
theorem C5_filename_formatter_witness :
    filename_formatter
      [("Muzik/x.ext", ⟨[("ARTIST", ["A/B"]), ("TITLE", ["Song"])], 9, 2, 320, 44100⟩)]
      "Muzik/" "Root/" "Muzik/x.ext" ["ARTIST", "/", "TITLE"] =
      .ok "Root/A_B/Song.ext" :=
  (C5_filename_formatter
    [("Muzik/x.ext", ⟨[("ARTIST", ["A/B"]), ("TITLE", ["Song"])], 9, 2, 320, 44100⟩)]
    "Muzik/" "Root/" "Muzik/x.ext" ["ARTIST", "/", "TITLE"]
    ⟨[("ARTIST", ["A/B"]), ("TITLE", ["Song"])], 9, 2, 320, 44100⟩
    "Muzik/x" "ext" rfl rfl).trans rfl

/-! ### rename_file: sanitisation dead store and collision probe -/

/-- C2: `rename_file` computes the sanitised filename component (and logs
`'?  was removed from d/b?d.mp3'`) but then discards it — the existence
test, the move and the collision candidates are all built from the
original `destination`, so the file ends up at `d/b?d.mp3` with the
illegal '?' intact, not at `d/b_d.mp3` as the claim states. -/
theorem C2_sanitize_discarded :
    rename_file 5 ⟨["d/a.mp3"], ["d/"], [], []⟩ "d/a.mp3" "d/b?d.mp3" ⟨[], []⟩ =
      (⟨["d/b?d.mp3"], ["d/"], [], []⟩,
       ⟨[.str "?  was removed from d/b?d.mp3"], []⟩,
       some (.ok "d/b?d.mp3")) := rfl

/-- A successful exit of the collision probe moved to a candidate that was
not an existing file, with index at least the starting one, every earlier
probed candidate being an existing file. -/
theorem collision_loop_ok (source head tail : String) :
    ∀ (fuel i : Nat) (fs fs2 : RFS) (p : String),
      collision_loop source head tail fuel i fs = some (fs2, .ok p) →
      os_isfile fs p = false ∧ fs2 = os_rename fs source p ∧
      ∃ n, i ≤ n ∧ p = head ++ "[" ++ toString n ++ "]." ++ tail ∧
        ∀ m, i ≤ m → m < n →
          os_isfile fs (head ++ "[" ++ toString m ++ "]." ++ tail) = true := by
  intro fuel
  induction fuel with
  | zero => intro i fs fs2 p h; exact absurd h (by simp [collision_loop])
  | succ fuel ih =>
    intro i fs fs2 p h
    rw [collision_loop] at h
    rcases hfree : os_isfile fs (head ++ "[" ++ toString i ++ "]." ++ tail) with _ | _
    · rw [hfree] at h
      rcases hblock : fs.renameBlocked.contains
          (head ++ "[" ++ toString i ++ "]." ++ tail) with _ | _
      · rw [hblock] at h
        simp only [Bool.not_false, if_true, Bool.false_eq_true, if_false,
          Option.some.injEq, Prod.mk.injEq, Except.ok.injEq] at h
        refine ⟨h.2 ▸ hfree, by rw [← h.1, h.2], i, le_rfl, h.2.symm, ?_⟩
        intro m him hmi
        omega
      · rw [hblock] at h
        simp at h
    · rw [hfree] at h
      simp only [Bool.not_true, Bool.false_eq_true, if_false] at h
      obtain ⟨hp, hfs2, n, hin, hcand, hall⟩ := ih (i + 1) fs fs2 p h
      refine ⟨hp, hfs2, n, by omega, hcand, ?_⟩
      intro m him hmn
      by_cases hm : m = i
      · exact hm ▸ hfree
      · exact hall m (by omega) hmn

/-- C1 confirmed: whenever the destination already exists as a file and
`rename_file` completes a move, the path moved to was not an existing
file, every existing file other than the source still exists afterwards,
and the moved-to path is the first collision candidate
`<stem>[n].<ext>` (n = 1, 2, 3, …) that was not an existing file — all
candidates below it were existing files. -/
theorem C1_rename_never_overwrites
    (fuel : Nat) (fs : RFS) (source destination : String) (alog : CoreLog)
    (fs2 : RFS) (lg : CoreLog) (p : String)
    (hexists : os_isfile fs destination = true)
    (hrun : rename_file fuel fs source destination alog = (fs2, lg, some (.ok p))) :
    os_isfile fs p = false ∧
    (∀ q, os_isfile fs q = true → q ≠ source → os_isfile fs2 q = true) ∧
    ∃ n, 1 ≤ n ∧ p = collisionCand destination n ∧
      ∀ m, 1 ≤ m → m < n → os_isfile fs (collisionCand destination m) = true := by
  simp only [rename_file] at hrun
  split at hrun
  · exact absurd hrun (by simp)
  · split at hrun
    · exact absurd hrun (by simp)
    · split at hrun
      · rw [if_neg (by
            have hmem : destination ∈ fs.files := by simpa [os_isfile] using hexists
            simp [os_isfile, hmem])] at hrun
        split at hrun
        · rename_i h2 t2 hsp
          split at hrun
          · exact absurd hrun (by simp)
          · rename_i fs2x out heq2
            simp only [Prod.mk.injEq, Option.some.injEq] at hrun
            obtain ⟨hfs2, hlg, hout⟩ := hrun
            subst hfs2
            subst hout
            obtain ⟨hp, hfs2eq, n, hn1, hpn, hmin⟩ :=
              collision_loop_ok source h2 t2 fuel 1 _ _ p heq2
            refine ⟨hp, ?_, n, hn1, ?_, ?_⟩
            · intro q hq hqs
              rw [hfs2eq]
              have hq2 : q ∈ fs.files := by simpa [os_isfile] using hq
              have hq3 : q ∈ fs.files.erase source := (List.mem_erase_of_ne hqs).mpr hq2
              have hq4 : q ∈ fs.files.erase source ++ [p] := List.mem_append.mpr (Or.inl hq3)
              simpa [os_isfile, os_rename] using hq4
            · simpa only [collisionCand, hsp] using hpn
            · intro m h1m hmn
              have hall := hmin m h1m hmn
              simpa only [collisionCand, hsp] using hall
        · exact absurd hrun (by simp)
      · rw [if_neg (by
            have hmem : destination ∈ fs.files := by simpa [os_isfile] using hexists
            simp [os_isfile, hmem])] at hrun
        split at hrun
        · rename_i h2 t2 hsp
          split at hrun
          · exact absurd hrun (by simp)
          · rename_i fs2x out heq2
            simp only [Prod.mk.injEq, Option.some.injEq] at hrun
            obtain ⟨hfs2, hlg, hout⟩ := hrun
            subst hfs2
            subst hout
            obtain ⟨hp, hfs2eq, n, hn1, hpn, hmin⟩ :=
              collision_loop_ok source h2 t2 fuel 1 _ _ p heq2
            refine ⟨hp, ?_, n, hn1, ?_, ?_⟩
            · intro q hq hqs
              rw [hfs2eq]
              have hq2 : q ∈ fs.files := by simpa [os_isfile] using hq
              have hq3 : q ∈ fs.files.erase source := (List.mem_erase_of_ne hqs).mpr hq2
              have hq4 : q ∈ fs.files.erase source ++ [p] := List.mem_append.mpr (Or.inl hq3)
              simpa [os_isfile, os_rename] using hq4
            · simpa only [collisionCand, hsp] using hpn
            · intro m h1m hmn
              have hall := hmin m h1m hmn
              simpa only [collisionCand, hsp] using hall
        · exact absurd hrun (by simp)

/-- C1 witness: with `d/t.mp3` and `d/t[1].mp3` already present, renaming
`s.mp3` onto the existing `d/t.mp3` probes `[1]` (occupied) and moves to
`d/t[2].mp3`, a previously nonexistent path. -/
theorem C1_rename_never_overwrites_witness :
    os_isfile ⟨["s.mp3", "d/t.mp3", "d/t[1].mp3"], ["d/"], [], []⟩ "d/t[2].mp3" = false ∧
    ∃ n, 1 ≤ n ∧ "d/t[2].mp3" = collisionCand "d/t.mp3" n ∧
      ∀ m, 1 ≤ m → m < n →
        os_isfile ⟨["s.mp3", "d/t.mp3", "d/t[1].mp3"], ["d/"], [], []⟩
          (collisionCand "d/t.mp3" m) = true := by
  have h := C1_rename_never_overwrites 5
    ⟨["s.mp3", "d/t.mp3", "d/t[1].mp3"], ["d/"], [], []⟩ "s.mp3" "d/t.mp3" ⟨[], []⟩
    ⟨["d/t.mp3", "d/t[1].mp3", "d/t[2].mp3"], ["d/"], [], []⟩ ⟨[], []⟩ "d/t[2].mp3"
    rfl rfl
  exact ⟨h.1, h.2.2⟩

/-! ### induct_folder: composition, refinement and error tolerance -/

/-- The entry loop over a concatenation runs the two halves in
sequence. -/
theorem induct_loop_append (path : String) (a b : List FsNode) :
    ∀ st : IState, induct_child.loop path (a ++ b) st =
      induct_child.loop path b (induct_child.loop path a st) := by
  induction a with
  | nil => intro st; rfl
  | cons c rest ih =>
    intro st
    simp only [List.cons_append, induct_child.loop]
    exact ih (induct_child path c st)

/-- On an all-readable forest, the folders and files accumulated by the
induction loop are the input accumulators followed by the pure depth-first
pre-order enumeration `induct_spec`. -/
theorem induct_loop_spec_agree :
    ∀ (k : Nat) (path : String) (cs : List FsNode) (st : IState),
      sizeOf cs ≤ k → all_readable.list_readable cs = true →
      (induct_child.loop path cs st).1 =
        st.1 ++ (induct_spec.induct_spec_list path cs).1 ∧
      (induct_child.loop path cs st).2.1 =
        st.2.1 ++ (induct_spec.induct_spec_list path cs).2 := by
  intro k
  induction k with
  | zero =>
    intro path cs st hsz _
    cases cs with
    | nil => simp [induct_child.loop, induct_spec.induct_spec_list]
    | cons c rest =>
      exact absurd hsz (by simp)
  | succ k ih =>
    intro path cs st hsz hr
    cases cs with
    | nil => simp [induct_child.loop, induct_spec.induct_spec_list]
    | cons c rest =>
      rw [all_readable.list_readable, Bool.and_eq_true] at hr
      obtain ⟨hc, hrest⟩ := hr
      have hszr : sizeOf rest ≤ k := by simp at hsz; omega
      cases c with
      | file n =>
        have hstep := ih path rest
          (if file_types.contains (induct_ext n) then
            (st.1, st.2.1 ++ [path ++ n], st.2.2) else st) hszr hrest
        rcases hft : file_types.contains (induct_ext n) with _ | _
        · rw [hft] at hstep
          simp only [induct_child.loop, induct_child, hft, Bool.false_eq_true,
            if_false] at hstep ⊢
          simp only [induct_spec.induct_spec_list, induct_spec, hft,
            Bool.false_eq_true, if_false]
          simp [hstep.1, hstep.2]
        · rw [hft] at hstep
          simp only [induct_child.loop, induct_child, hft, if_true] at hstep ⊢
          simp only [induct_spec.induct_spec_list, induct_spec, hft, if_true]
          simp [hstep.1, hstep.2]
      | other n =>
        have hstep := ih path rest st hszr hrest
        simp only [induct_child.loop, induct_child] at hstep ⊢
        simp only [induct_spec.induct_spec_list, induct_spec]
        simp [hstep.1, hstep.2]
      | dir n r sub =>
        rw [all_readable] at hc
        rw [Bool.and_eq_true] at hc
        obtain ⟨hrt, hsubr⟩ := hc
        subst hrt
        have hszs : sizeOf sub ≤ k := by simp at hsz; omega
        simp only [induct_child.loop, induct_child, if_true]
        set lg2 := pushR (pushR st.2.2 (PyObj.str ("Beginning to induct " ++ (path ++ n ++ "/"))))
          (PyObj.str (toString sub.length ++ " items to induct.")) with hlg2
        set st2 := induct_child.loop (path ++ n ++ "/") sub
          (st.1 ++ [path ++ n ++ "/"], st.2.1, lg2) with hst2
        have h1 := ih (path ++ n ++ "/") sub
          (st.1 ++ [path ++ n ++ "/"], st.2.1, lg2) hszs hsubr
        rw [← hst2] at h1
        have h2 := ih path rest
          (st2.1, st2.2.1, pushR st2.2.2 (PyObj.str "Finished induction.")) hszr hrest
        simp only [induct_spec.induct_spec_list, induct_spec]
        constructor
        · rw [h2.1]
          simp only
          rw [h1.1]
          simp [List.append_assoc]
        · rw [h2.2]
          simp only
          rw [h1.2]
          simp [List.append_assoc]

/-- C4 amended: on an all-readable tree, `induct_folder` returns exactly
the files whose extension — the last '.'-separated component of the name,
which for a dot-free name is the whole name — lies in the supported-format
set, every other entry silently skipped, and the folder list is the
depth-first pre-order enumeration (a folder listed immediately before
everything inside it, descendants' files appended after the folder is
recorded), both as enumerated by the pure `induct_spec`. -/
theorem C4_induct_folder_amended (path : String) (listing : List FsNode)
    (alog : CoreLog) (fold file : Option (List String))
    (hread : all_readable.list_readable listing = true) :
    ∃ lg, induct_folder true path true listing alog fold file =
      .ok (fold.getD [] ++ (induct_spec.induct_spec_list path listing).1,
           file.getD [] ++ (induct_spec.induct_spec_list path listing).2, lg) := by
  have h := induct_loop_spec_agree (sizeOf listing) path listing
    (fold.getD [], file.getD [],
      pushR (pushR alog (.str ("Beginning to induct " ++ path)))
        (.str (toString listing.length ++ " items to induct."))) le_rfl hread
  refine ⟨pushR (induct_child.loop path listing
    (fold.getD [], file.getD [],
      pushR (pushR alog (.str ("Beginning to induct " ++ path)))
        (.str (toString listing.length ++ " items to induct.")))).2.2
    (.str "Finished induction."), ?_⟩
  simp only [induct_folder, Bool.not_true, Bool.false_eq_true, if_false]
  rw [Except.ok.injEq]
  refine Prod.ext ?_ (Prod.ext ?_ rfl)
  · exact h.1
  · exact h.2

/-- C4 counterexample: a regular file literally named `mp3` has no '.' in
its name, hence no extension in the claim's sense (`spec_extension` is
`none`), yet the induction filter takes the last component of
`name.split('.')` — the whole name — finds it in the supported set, and
returns the file. -/
theorem C4_counterexample_dotless :
    induct_folder true "Music/" true [.file "mp3"] ⟨[], []⟩ none none =
      .ok ([], ["Music/mp3"],
        ⟨[.str "Beginning to induct Music/", .str "1 items to induct.",
          .str "Finished induction."], []⟩) ∧
    spec_extension "mp3" = none :=
  ⟨rfl, rfl⟩

/-- C4 witness: the amended theorem applied to a two-level tree with two
supported files, one unsupported file and two nested folders. -/
theorem C4_induct_folder_witness :
    ∃ lg, induct_folder true "R/" true
      [.file "a.mp3", .dir "d" true [.file "b.ogg", .dir "e" true []],
       .file "x.txt", .other "dev"] ⟨[], []⟩ none none =
      .ok (["R/d/", "R/d/e/"], ["R/a.mp3", "R/d/b.ogg"], lg) := by
  obtain ⟨lg, h⟩ := C4_induct_folder_amended "R/"
    [.file "a.mp3", .dir "d" true [.file "b.ogg", .dir "e" true []],
     .file "x.txt", .other "dev"] ⟨[], []⟩ none none rfl
  exact ⟨lg, h.trans (by rfl)⟩

/-- C7 confirmed: (1) with a readable root, `induct_folder` always returns
normally — a failing recursive sub-call never aborts the traversal;
(2) an unreadable sub-directory contributes its folder entry and one
chained error entry naming it, and the loop then continues with the
remaining siblings on the accumulated state; (3) an unreadable root raises
`CoreError('Failed to load directory: ...')` and hands back no partial
lists; (4) a non-string root raises the type-guard `CoreError`. -/
theorem C7_induct_error_tolerance :
    (∀ (path : String) (listing : List FsNode) (alog : CoreLog)
        (fold file : Option (List String)),
      ∃ st, induct_folder true path true listing alog fold file = .ok st) ∧
    (∀ (path n : String) (pre post sub : List FsNode) (st : IState),
      induct_child.loop path (pre ++ .dir n false sub :: post) st =
        induct_child.loop path post
          ((induct_child.loop path pre st).1 ++ [path ++ n ++ "/"],
           (induct_child.loop path pre st).2.1,
           pushE (induct_child.loop path pre st).2.2
             (.list [.str ("Recursive induct_folder() call failed for: "
                       ++ (path ++ n ++ "/")),
                     .list [.str ("Failed to load directory: "
                       ++ (path ++ n ++ "/"))]]))) ∧
    (∀ (path : String) (listing : List FsNode) (alog : CoreLog)
        (fold file : Option (List String)),
      induct_folder true path false listing alog fold file =
        .error (mkCoreError ("Failed to load directory: " ++ path))) ∧
    (∀ (path : String) (readable : Bool) (listing : List FsNode) (alog : CoreLog)
        (fold file : Option (List String)),
      induct_folder false path readable listing alog fold file =
        .error (mkCoreError "Directory was not a string value, aborting.")) := by
  refine ⟨fun path listing alog fold file => ⟨_, rfl⟩, ?_, fun _ _ _ _ _ => rfl,
    fun _ _ _ _ _ _ => rfl⟩
  intro path n pre post sub st
  rw [induct_loop_append]
  rfl

/-! ### tag_extractor resource handling and dot-free paths -/

/-- C8: for an mp3 whose tags lack TRACKNUMBER, `tag_extractor` opens the
taglib handle, raises `IndexError` at `track_numbers[0]`, and never
reaches `song.close()` — the handle is opened but not closed (first
conjunct); on a successful extraction the handle is closed (second
conjunct, a flac file). -/
theorem C8_tag_extractor_handle_leak :
    tag_extractor [("x.mp3", ⟨[("ARTIST", ["A"])], 61, 2, 128, 44100⟩)]
      "x.mp3" "mp3" = (.error .indexError, true, false) ∧
    (tag_extractor [("y.flac", ⟨[("ARTIST", ["A"])], 61, 2, 128, 44100⟩)]
      "y.flac" "flac").2 = (true, true) :=
  ⟨rfl, rfl⟩

/-- A character that does not occur in a list gives no last-occurrence
split. -/
theorem splitLastChar_eq_none (c : Char) :
    ∀ l : List Char, l.contains c = false → splitLastChar c l = none := by
  intro l
  induction l with
  | nil => intro _; rfl
  | cons ch rest ih =>
    intro h
    have h2 : (c == ch) = false ∧ rest.contains c = false := by
      have hc : (ch :: rest).contains c = (c == ch || rest.contains c) :=
        List.contains_cons
      rw [hc] at h
      exact ⟨(Bool.or_eq_false_iff.mp h).1, (Bool.or_eq_false_iff.mp h).2⟩
    have hne : ch ≠ c := fun he => absurd rfl (he ▸ beq_eq_false_iff_ne.mp h2.1).symm
    rw [splitLastChar, ih h2.2]
    simp [hne]

/-- A dot-free string `rsplit`s to the one-element list. -/
theorem pyRsplitDot_dotless (s : String) (h : s.data.contains '.' = false) :
    pyRsplitDot s = [s] := by
  rw [pyRsplitDot, splitLastChar_eq_none '.' s.data h]

/-- C9 confirmed: a dot-free file path slips through the induction filter
(a regular file literally named `mp3` is returned, first conjunct);
`filename_formatter` on such a path reaches
`file.rsplit('.', 1)[1]` and raises `IndexError`, not `CoreError`, as long
as taglib could open the file (second conjunct); `Song.__init__`'s
`filename.rsplit('.', 1)[1]` raises the same `IndexError` (third
conjunct); and since `reorder_folder`'s per-file handlers catch only
`CoreError`, such a file aborts the whole batch with the counter still at
0 and the second file never processed (fourth conjunct). -/
theorem C9_dotless_path_aborts_batch :
    (induct_folder true "Lib/" true [.file "mp3", .file "b.mp3"] ⟨[], []⟩ none none =
      .ok ([], ["Lib/mp3", "Lib/b.mp3"],
        ⟨[.str "Beginning to induct Lib/", .str "2 items to induct.",
          .str "Finished induction."], []⟩)) ∧
    (∀ (db : TagDB) (source destination f : String) (order_format : List String)
        (song : TagFile),
      f.data.contains '.' = false → db.lookup f = some song →
      filename_formatter db source destination f order_format = .error .indexError) ∧
    (∀ f : String, f.data.contains '.' = false →
      song_file_type f = .error .indexError) ∧
    (reorder_folder 9 [("Lib/mp3", ⟨[("TITLE", ["T"])], 9, 2, 128, 44100⟩)]
      ⟨[], [], [], []⟩ "Lib/" true [.file "mp3", .file "b.mp3"] "Out/"
      ⟨[], []⟩ ["TITLE"] [] =
      ⟨⟨[], [], [], []⟩,
       ⟨[.str "reorder_folder() calling induct_folder().",
         .str "Beginning to induct Lib/", .str "2 items to induct.",
         .str "Finished induction.", .str "2 files to re-order.",
         .str "Formatting new name for Lib/mp3"], []⟩,
       0, 0, .raised .indexError⟩) := by
  refine ⟨rfl, ?_, ?_, rfl⟩
  · intro db source destination f order_format song hdot hdb
    simp only [filename_formatter, hdb, pyRsplitDot_dotless f hdot]
  · intro f hdot
    simp only [song_file_type, pyRsplitDot_dotless f hdot]

/-- C9 witness: the two per-path conjuncts applied at the concrete
dot-free path `Tunes/mp3`. -/
theorem C9_dotless_path_witness :
    filename_formatter [("Tunes/mp3", ⟨[("TITLE", ["T"])], 9, 2, 128, 44100⟩)]
      "Tunes/" "Out/" "Tunes/mp3" ["TITLE"] = .error .indexError ∧
    song_file_type "Tunes/mp3" = .error .indexError :=
  ⟨C9_dotless_path_aborts_batch.2.1
     [("Tunes/mp3", ⟨[("TITLE", ["T"])], 9, 2, 128, 44100⟩)]
     "Tunes/" "Out/" "Tunes/mp3" ["TITLE"]
     ⟨[("TITLE", ["T"])], 9, 2, 128, 44100⟩ rfl rfl,
   C9_dotless_path_aborts_batch.2.2.1 "Tunes/mp3" rfl⟩

/-! ### reorder_folder: failure counting and the circuit breaker -/

/-- With an empty taglib collaborator every file fails formatting with
`CoreError('taglib.File() failed.')`: one step appends the run entry, the
numbered error entry and the exception's own entry, and increments the
counter. -/
theorem process_file_allfail (fuel : Nat) (source destination : String)
    (ofmt : List String) (f : String) (fs : RFS) (lg : CoreLog) (e : Nat) :
    process_file fuel [] source destination ofmt f fs lg e =
      .next fs
        (elogger
          (pushE (pushR lg (.str ("Formatting new name for " ++ f)))
            (.str ("filename_formatter() failed on file: " ++ f
              ++ "   Error count at: " ++ toString (e + 1))))
          [.str "taglib.File() failed."]) (e + 1) := rfl

/-- Over an all-failing batch with enough `'Y'` answers queued, the loop
completes, trips the breaker exactly once per crossing of the `> 10`
threshold (once per 11 accumulated failures, the counter being reset on
each resume), ends with the counter at the remainder, leaves the file
system untouched and appends exactly two error entries per file. -/
theorem reorder_loop_allfail_resume (fuel : Nat) (source destination : String)
    (ofmt : List String) :
    ∀ (files : List String) (fs : RFS) (lg : CoreLog) (k trips e : Nat),
      e ≤ 10 → (e + files.length) / 11 ≤ k →
      (reorder_loop fuel [] source destination ofmt files fs lg
          (List.replicate k .resume) trips e).outcome = .completed ∧
      (reorder_loop fuel [] source destination ofmt files fs lg
          (List.replicate k .resume) trips e).trips =
        trips + (e + files.length) / 11 ∧
      (reorder_loop fuel [] source destination ofmt files fs lg
          (List.replicate k .resume) trips e).errors = (e + files.length) % 11 ∧
      (reorder_loop fuel [] source destination ofmt files fs lg
          (List.replicate k .resume) trips e).fs = fs ∧
      (reorder_loop fuel [] source destination ofmt files fs lg
          (List.replicate k .resume) trips e).log.error_log.length =
        lg.error_log.length + 2 * files.length := by
  intro files
  induction files with
  | nil =>
    intro fs lg k trips e he hk
    refine ⟨rfl, ?_, ?_, rfl, ?_⟩
    · show trips = trips + (e + ([] : List String).length) / 11
      simp only [List.length_nil]
      omega
    · show e = (e + ([] : List String).length) % 11
      simp only [List.length_nil]
      omega
    · show (pushR lg (.str "reorder_folder completed.")).error_log.length =
        lg.error_log.length + 2 * ([] : List String).length
      simp [pushR]
  | cons f rest ih =>
    intro fs lg k trips e he hk
    simp only [reorder_loop, process_file_allfail]
    by_cases h11 : e + 1 > 10
    · have he10 : e = 10 := by omega
      cases k with
      | zero =>
        exact absurd hk (by subst he10; simp only [List.length_cons]; omega)
      | succ kp =>
        rw [if_pos h11, List.replicate_succ]
        simp only [breaker_prompt]
        have hih := ih fs
          (elogger
            (pushE (pushR lg (.str ("Formatting new name for " ++ f)))
              (.str ("filename_formatter() failed on file: " ++ f
                ++ "   Error count at: " ++ toString (e + 1))))
            [.str "taglib.File() failed."]) kp (trips + 1) 0
          (by omega) (by subst he10; simp only [List.length_cons] at hk; omega)
        refine ⟨hih.1, ?_, ?_, hih.2.2.2.1, ?_⟩
        · rw [hih.2.1]
          subst he10
          simp only [List.length_cons]
          omega
        · rw [hih.2.2.1]
          subst he10
          simp only [List.length_cons]
          omega
        · rw [hih.2.2.2.2]
          simp only [elogger, pushE, pushR, List.length_append, List.length_cons]
          simp
          omega
    · rw [if_neg h11]
      have hih := ih fs
        (elogger
          (pushE (pushR lg (.str ("Formatting new name for " ++ f)))
            (.str ("filename_formatter() failed on file: " ++ f
              ++ "   Error count at: " ++ toString (e + 1))))
          [.str "taglib.File() failed."]) k trips (e + 1)
        (by omega) (by simp only [List.length_cons] at hk; omega)
      refine ⟨hih.1, ?_, ?_, hih.2.2.2.1, ?_⟩
      · rw [hih.2.1]
        simp only [List.length_cons]
        omega
      · rw [hih.2.2.1]
        simp only [List.length_cons]
        omega
      · rw [hih.2.2.2.2]
        simp only [elogger, pushE, pushR, List.length_append, List.length_cons]
        simp
        omega

/-- Over an all-failing batch long enough to cross the threshold, the
first breaker activation resolves according to the queued inputs: a
session whose prompt inputs end in `'N'` (after any number of `'S'`/other
inputs) raises the user-abort `CoreError`, and a session whose inputs
never reach a terminal answer stays suspended — in both cases after
exactly one activation. -/
theorem reorder_loop_allfail_break (fuel : Nat) (source destination : String)
    (ofmt : List String) :
    ∀ (files : List String) (fs : RFS) (lg : CoreLog) (oracle : List Choice)
      (trips e : Nat),
      e ≤ 10 → 11 - e ≤ files.length →
      ((breaker_prompt oracle).1 = some false →
        (reorder_loop fuel [] source destination ofmt files fs lg oracle
            trips e).outcome =
          .raised (.core (mkCoreError "User terminated:  Multiple rename fails.")) ∧
        (reorder_loop fuel [] source destination ofmt files fs lg oracle
            trips e).trips = trips + 1) ∧
      ((breaker_prompt oracle).1 = none →
        (reorder_loop fuel [] source destination ofmt files fs lg oracle
            trips e).outcome = .suspended ∧
        (reorder_loop fuel [] source destination ofmt files fs lg oracle
            trips e).trips = trips + 1) := by
  intro files
  induction files with
  | nil =>
    intro fs lg oracle trips e he hlen
    exact absurd hlen (by simp; omega)
  | cons f rest ih =>
    intro fs lg oracle trips e he hlen
    simp only [reorder_loop, process_file_allfail]
    by_cases h11 : e + 1 > 10
    · rw [if_pos h11]
      rcases hb : breaker_prompt oracle with ⟨ob, rest_o⟩
      constructor
      · intro habort
        have hob : ob = some false := habort
        subst hob
        exact ⟨rfl, rfl⟩
      · intro hnone
        have hob : ob = none := hnone
        subst hob
        exact ⟨rfl, rfl⟩
    · rw [if_neg h11]
      exact ih _ _ oracle trips (e + 1) (by omega)
        (by simp only [List.length_cons] at hlen; omega)

/-- C3 counterexample: a file named `mp3` (no '.') makes
`filename_formatter` raise `IndexError`, which the per-file
`except CoreError` handlers do not catch: the batch aborts on the first
file with the failure counter untouched and the second file never
processed — `reorder_folder` raised solely because formatting one file
failed. -/
theorem C3_counterexample_noncore_failure :
    reorder_folder 9 [("Box/mp3", ⟨[("TITLE", ["T"])], 9, 2, 128, 44100⟩)]
      ⟨[], [], [], []⟩ "Box/" true [.file "mp3", .file "c.mp3"] "Out/"
      ⟨[], []⟩ ["TITLE"] [] =
      ⟨⟨[], [], [], []⟩,
       ⟨[.str "reorder_folder() calling induct_folder().",
         .str "Beginning to induct Box/", .str "2 items to induct.",
         .str "Finished induction.", .str "2 files to re-order.",
         .str "Formatting new name for Box/mp3"], []⟩,
       0, 0, .raised .indexError⟩ := rfl

/-- C3 amended: `reorder_folder` never raises solely because formatting or
renaming one file failed with the module's `CoreError` — each such failure
increments the counter, appends the chained error entries and processing
continues — but a per-file failure that raises any other exception (such
as `IndexError` for an extensionless filename) aborts the whole batch.
Over a batch in which every file fails with `CoreError` (taglib cannot
open anything): with `'Y'` answered at every prompt the run completes,
the breaker is invoked exactly once per crossing of the `> 10` threshold
(i.e. `N / 11` times, the counter being reset to 0 on each resume), the
counter ends at `N % 11` (in particular it equals `N` when `N ≤ 10` and
no activation happens), and exactly two error entries are logged per
failure; at the first activation an input stream whose terminal answer is
`'N'` raises `CoreError('User terminated:  Multiple rename fails.')`, and
an input stream with no terminal answer (only `'S'`/invalid input) leaves
the run suspended at the prompt. -/
theorem C3_reorder_amended :
    (∀ (fuel : Nat) (src : String) (listing : List FsNode) (dst : String)
        (ofmt : List String) (fs : RFS) (alog : CoreLog) (k : Nat)
        (fo fi : List String) (lgi : CoreLog),
      induct_folder true src true listing
        (pushR alog (.str "reorder_folder() calling induct_folder().")) none none =
        .ok (fo, fi, lgi) →
      fi.length / 11 ≤ k →
      (reorder_folder fuel [] fs src true listing dst alog ofmt
          (List.replicate k .resume)).outcome = .completed ∧
      (reorder_folder fuel [] fs src true listing dst alog ofmt
          (List.replicate k .resume)).trips = fi.length / 11 ∧
      (reorder_folder fuel [] fs src true listing dst alog ofmt
          (List.replicate k .resume)).errors = fi.length % 11 ∧
      (reorder_folder fuel [] fs src true listing dst alog ofmt
          (List.replicate k .resume)).fs = fs ∧
      (reorder_folder fuel [] fs src true listing dst alog ofmt
          (List.replicate k .resume)).log.error_log.length =
        lgi.error_log.length + 2 * fi.length) ∧
    (∀ (fuel : Nat) (src : String) (listing : List FsNode) (dst : String)
        (ofmt : List String) (fs : RFS) (alog : CoreLog) (oracle : List Choice)
        (fo fi : List String) (lgi : CoreLog),
      induct_folder true src true listing
        (pushR alog (.str "reorder_folder() calling induct_folder().")) none none =
        .ok (fo, fi, lgi) →
      11 ≤ fi.length → (breaker_prompt oracle).1 = some false →
      (reorder_folder fuel [] fs src true listing dst alog ofmt oracle).outcome =
        .raised (.core (mkCoreError "User terminated:  Multiple rename fails.")) ∧
      (reorder_folder fuel [] fs src true listing dst alog ofmt oracle).trips = 1) ∧
    (∀ (fuel : Nat) (src : String) (listing : List FsNode) (dst : String)
        (ofmt : List String) (fs : RFS) (alog : CoreLog) (oracle : List Choice)
        (fo fi : List String) (lgi : CoreLog),
      induct_folder true src true listing
        (pushR alog (.str "reorder_folder() calling induct_folder().")) none none =
        .ok (fo, fi, lgi) →
      11 ≤ fi.length → (breaker_prompt oracle).1 = none →
      (reorder_folder fuel [] fs src true listing dst alog ofmt oracle).outcome =
        .suspended ∧
      (reorder_folder fuel [] fs src true listing dst alog ofmt oracle).trips = 1) := by
  refine ⟨?_, ?_, ?_⟩
  · intro fuel src listing dst ofmt fs alog k fo fi lgi hind hk
    have h := reorder_loop_allfail_resume fuel src dst ofmt fi fs
      (pushR lgi (.str (toString fi.length ++ " files to re-order."))) k 0 0
      (by omega) (by simpa using hk)
    simp only [reorder_folder, hind]
    refine ⟨h.1, ?_, ?_, h.2.2.2.1, ?_⟩
    · rw [h.2.1]
      omega
    · rw [h.2.2.1]
      omega
    · exact h.2.2.2.2
  · intro fuel src listing dst ofmt fs alog oracle fo fi lgi hind hlen habort
    have h := reorder_loop_allfail_break fuel src dst ofmt fi fs
      (pushR lgi (.str (toString fi.length ++ " files to re-order."))) oracle 0 0
      (by omega) (by omega)
    simp only [reorder_folder, hind]
    exact (h.1 habort).imp id (fun ht => ht)
  · intro fuel src listing dst ofmt fs alog oracle fo fi lgi hind hlen hnone
    have h := reorder_loop_allfail_break fuel src dst ofmt fi fs
      (pushR lgi (.str (toString fi.length ++ " files to re-order."))) oracle 0 0
      (by omega) (by omega)
    simp only [reorder_folder, hind]
    exact (h.2 hnone).imp id (fun ht => ht)

/-- C3 witness: twelve files that all fail formatting, with two `'Y'`
answers queued — the run completes, the breaker fires exactly once (at the
11th failure) and the counter ends at 1. -/
theorem C3_reorder_witness :
    (reorder_folder 3 [] ⟨[], [], [], []⟩ "S/" true
      [.file "f01.mp3", .file "f02.mp3", .file "f03.mp3", .file "f04.mp3",
       .file "f05.mp3", .file "f06.mp3", .file "f07.mp3", .file "f08.mp3",
       .file "f09.mp3", .file "f10.mp3", .file "f11.mp3", .file "f12.mp3"]
      "Out/" ⟨[], []⟩ ["TITLE"] (List.replicate 2 .resume)).outcome = .completed ∧
    (reorder_folder 3 [] ⟨[], [], [], []⟩ "S/" true
      [.file "f01.mp3", .file "f02.mp3", .file "f03.mp3", .file "f04.mp3",
       .file "f05.mp3", .file "f06.mp3", .file "f07.mp3", .file "f08.mp3",
       .file "f09.mp3", .file "f10.mp3", .file "f11.mp3", .file "f12.mp3"]
      "Out/" ⟨[], []⟩ ["TITLE"] (List.replicate 2 .resume)).trips = 1 ∧
    (reorder_folder 3 [] ⟨[], [], [], []⟩ "S/" true
      [.file "f01.mp3", .file "f02.mp3", .file "f03.mp3", .file "f04.mp3",
       .file "f05.mp3", .file "f06.mp3", .file "f07.mp3", .file "f08.mp3",
       .file "f09.mp3", .file "f10.mp3", .file "f11.mp3", .file "f12.mp3"]
      "Out/" ⟨[], []⟩ ["TITLE"] (List.replicate 2 .resume)).errors = 1 := by
  have h := C3_reorder_amended.1 3 "S/"
    [.file "f01.mp3", .file "f02.mp3", .file "f03.mp3", .file "f04.mp3",
     .file "f05.mp3", .file "f06.mp3", .file "f07.mp3", .file "f08.mp3",
     .file "f09.mp3", .file "f10.mp3", .file "f11.mp3", .file "f12.mp3"]
    "Out/" ["TITLE"] ⟨[], [], [], []⟩ ⟨[], []⟩ 2 []
    ["S/f01.mp3", "S/f02.mp3", "S/f03.mp3", "S/f04.mp3", "S/f05.mp3",
     "S/f06.mp3", "S/f07.mp3", "S/f08.mp3", "S/f09.mp3", "S/f10.mp3",
     "S/f11.mp3", "S/f12.mp3"]
    ⟨[.str "reorder_folder() calling induct_folder().",
      .str "Beginning to induct S/", .str "12 items to induct.",
      .str "Finished induction."], []⟩ rfl (by decide)
  exact ⟨h.1, h.2.1.trans (by decide), h.2.2.1.trans (by decide)⟩

/-! ### Append-only logs (every operation only extends both streams) -/

/-- The induction loop only appends to both log streams. -/
theorem induct_loop_log_mono :
    ∀ (k : Nat) (path : String) (cs : List FsNode) (st : IState),
      sizeOf cs ≤ k →
      st.2.2.run_log <+: (induct_child.loop path cs st).2.2.run_log ∧
      st.2.2.error_log <+: (induct_child.loop path cs st).2.2.error_log := by
  intro k
  induction k with
  | zero =>
    intro path cs st hsz
    cases cs with
    | nil => exact ⟨List.prefix_refl _, List.prefix_refl _⟩
    | cons c rest => exact absurd hsz (by simp)
  | succ k ih =>
    intro path cs st hsz
    cases cs with
    | nil => exact ⟨List.prefix_refl _, List.prefix_refl _⟩
    | cons c rest =>
      have hszr : sizeOf rest ≤ k := by simp at hsz; omega
      cases c with
      | file n =>
        simp only [induct_child.loop, induct_child]
        rcases hft : file_types.contains (induct_ext n) with _ | _
        · simp only [hft, Bool.false_eq_true, if_false]
          exact ih path rest st hszr
        · simp only [hft, if_true]
          exact ih path rest (st.1, st.2.1 ++ [path ++ n], st.2.2) hszr
      | other n =>
        simp only [induct_child.loop, induct_child]
        exact ih path rest st hszr
      | dir n r sub =>
        have hszs : sizeOf sub ≤ k := by simp at hsz; omega
        simp only [induct_child.loop, induct_child]
        rcases r with _ | _
        · simp only [Bool.false_eq_true, if_false]
          have h2 := ih path rest
            (st.1 ++ [path ++ n ++ "/"], st.2.1,
              pushE st.2.2 (.list
                [.str ("Recursive induct_folder() call failed for: "
                   ++ (path ++ n ++ "/")),
                 .list [.str ("Failed to load directory: "
                   ++ (path ++ n ++ "/"))]])) hszr
          exact ⟨h2.1, List.IsPrefix.trans (List.prefix_append _ _) h2.2⟩
        · simp only [if_true]
          set lg2 := pushR (pushR st.2.2
              (PyObj.str ("Beginning to induct " ++ (path ++ n ++ "/"))))
            (PyObj.str (toString sub.length ++ " items to induct.")) with hlg2
          set st2 := induct_child.loop (path ++ n ++ "/") sub
            (st.1 ++ [path ++ n ++ "/"], st.2.1, lg2) with hst2
          have h1 := ih (path ++ n ++ "/") sub
            (st.1 ++ [path ++ n ++ "/"], st.2.1, lg2) hszs
          rw [← hst2] at h1
          have h2 := ih path rest
            (st2.1, st2.2.1, pushR st2.2.2 (PyObj.str "Finished induction.")) hszr
          have hA : st.2.2.run_log <+: lg2.run_log := by
            rw [hlg2]
            simp only [pushR, List.append_assoc]
            exact List.prefix_append _ _
          have hC : st2.2.2.run_log <+:
              (pushR st2.2.2 (PyObj.str "Finished induction.")).run_log := by
            simp only [pushR]
            exact List.prefix_append _ _
          constructor
          · exact hA.trans (List.IsPrefix.trans h1.1 (hC.trans h2.1))
          · exact List.IsPrefix.trans h1.2 h2.2

/-- The logging sanitisation loop appends to the run stream and leaves the
error stream untouched. -/
theorem sanitize_tail_log_mono (destination : String) :
    ∀ (cs : List Char) (tail : String) (lg : CoreLog),
      lg.run_log <+: (sanitize_tail_log destination cs tail lg).2.run_log ∧
      (sanitize_tail_log destination cs tail lg).2.error_log = lg.error_log := by
  intro cs
  induction cs with
  | nil => intro tail lg; exact ⟨List.prefix_refl _, rfl⟩
  | cons c rest ih =>
    intro tail lg
    simp only [sanitize_tail_log]
    rcases hc : tail.data.contains c with _ | _
    · simp only [Bool.false_eq_true, if_false]
      exact ih tail lg
    · simp only [if_true]
      have h := ih (charReplace tail c)
        (pushR lg (.str ((⟨[c]⟩ : String) ++ "  was removed from " ++ destination)))
      refine ⟨List.IsPrefix.trans ?_ h.1, h.2⟩
      simp only [pushR]
      exact List.prefix_append _ _

/-- `rename_file` only appends to both log streams. -/
theorem rename_file_log_mono (fuel : Nat) (fs : RFS) (source destination : String)
    (alog : CoreLog) :
    alog.run_log <+: (rename_file fuel fs source destination alog).2.1.run_log ∧
    alog.error_log <+: (rename_file fuel fs source destination alog).2.1.error_log := by
  have hsan := sanitize_tail_log_mono destination illegal_name_characters
    (os_path_split destination).2 alog
  simp only [rename_file]
  repeat' split
  all_goals first
    | exact ⟨List.prefix_refl _, List.prefix_refl _⟩
    | exact ⟨hsan.1, by rw [hsan.2]⟩

/-- One per-file step of the reorder loop only appends to both log
streams, whatever its outcome. -/
theorem process_file_log_mono (fuel : Nat) (db : TagDB)
    (source destination : String) (ofmt : List String) (f : String)
    (fs : RFS) (lg : CoreLog) (e : Nat) :
    lg.run_log <+:
      (step_log (process_file fuel db source destination ofmt f fs lg e)).run_log ∧
    lg.error_log <+:
      (step_log (process_file fuel db source destination ofmt f fs lg e)).error_log := by
  have hpush : lg.run_log <+:
      (pushR lg (.str ("Formatting new name for " ++ f))).run_log := by
    simp only [pushR]
    exact List.prefix_append _ _
  simp only [process_file]
  split
  · refine ⟨hpush.trans ?_, ?_⟩
    · simp only [step_log, elogger, pushE]
      exact List.prefix_refl _
    · simp only [step_log, elogger, pushE, List.append_assoc]
      exact List.prefix_append _ _
  · exact ⟨hpush, List.prefix_refl _⟩
  · rename_i new_name hfmt
    have hren := rename_file_log_mono fuel fs f new_name
      (pushR (pushR lg (.str ("Formatting new name for " ++ f)))
        (.str ("Renaming " ++ f)))
    have hpush2 : lg.run_log <+:
        (pushR (pushR lg (.str ("Formatting new name for " ++ f)))
          (.str ("Renaming " ++ f))).run_log := by
      simp only [pushR, List.append_assoc]
      exact List.prefix_append _ _
    split
    · rename_i fs1 lg1 q hq
      have hq1 : (rename_file fuel fs f new_name
        (pushR (pushR lg (.str ("Formatting new name for " ++ f)))
          (.str ("Renaming " ++ f)))).2.1 = lg1 := by rw [hq]
      rw [hq1] at hren
      exact ⟨hpush2.trans hren.1, hren.2⟩
    · rename_i fs1 lg1 er hq
      have hq1 : (rename_file fuel fs f new_name
        (pushR (pushR lg (.str ("Formatting new name for " ++ f)))
          (.str ("Renaming " ++ f)))).2.1 = lg1 := by rw [hq]
      rw [hq1] at hren
      refine ⟨hpush2.trans (hren.1.trans ?_), hren.2.trans ?_⟩
      · simp only [step_log, elogger, pushE]
        exact List.prefix_refl _
      · simp only [step_log, elogger, pushE, List.append_assoc]
        exact List.prefix_append _ _
    · rename_i fs1 lg1 pe hpe hq
      have hq1 : (rename_file fuel fs f new_name
        (pushR (pushR lg (.str ("Formatting new name for " ++ f)))
          (.str ("Renaming " ++ f)))).2.1 = lg1 := by rw [hq]
      rw [hq1] at hren
      exact ⟨hpush2.trans hren.1, hren.2⟩
    · rename_i fs1 lg1 hq
      have hq1 : (rename_file fuel fs f new_name
        (pushR (pushR lg (.str ("Formatting new name for " ++ f)))
          (.str ("Renaming " ++ f)))).2.1 = lg1 := by rw [hq]
      rw [hq1] at hren
      exact ⟨hpush2.trans hren.1, hren.2⟩

/-- The per-file reorder loop only appends to both log streams. -/
theorem reorder_loop_log_mono (fuel : Nat) (db : TagDB)
    (source destination : String) (ofmt : List String) :
    ∀ (files : List String) (fs : RFS) (lg : CoreLog) (oracle : List Choice)
      (trips e : Nat),
      lg.run_log <+:
        (reorder_loop fuel db source destination ofmt files fs lg oracle
          trips e).log.run_log ∧
      lg.error_log <+:
        (reorder_loop fuel db source destination ofmt files fs lg oracle
          trips e).log.error_log := by
  intro files
  induction files with
  | nil =>
    intro fs lg oracle trips e
    constructor
    · show lg.run_log <+: (pushR lg (.str "reorder_folder completed.")).run_log
      simp only [pushR]
      exact List.prefix_append _ _
    · exact List.prefix_refl _
  | cons f rest ih =>
    intro fs lg oracle trips e
    have hstep := process_file_log_mono fuel db source destination ofmt f fs lg e
    simp only [reorder_loop]
    split
    · rename_i fs1 lg1 er hq
      rw [hq] at hstep
      exact hstep
    · rename_i fs1 lg1 hq
      rw [hq] at hstep
      exact hstep
    · rename_i fs1 lg1 e1 hq
      rw [hq] at hstep
      simp only [step_log] at hstep
      split
      · split
        · rename_i oracle1 hb
          exact ⟨hstep.1.trans (ih fs1 lg1 oracle1 (trips + 1) 0).1,
                 hstep.2.trans (ih fs1 lg1 oracle1 (trips + 1) 0).2⟩
        · exact hstep
        · exact hstep
      · exact ⟨hstep.1.trans (ih fs1 lg1 oracle trips e1).1,
               hstep.2.trans (ih fs1 lg1 oracle trips e1).2⟩

/-- C10 confirmed: the two log streams are append-only during a session.
Assigning a non-`None` value to `rlog`/`elog` appends exactly one entry at
the end of its stream and leaves both streams' previous entries unchanged
and in order (first conjunct), and each core operation that receives a log
(`induct_folder`, `rename_file`, `reorder_folder`; `filename_formatter`
takes no log object) returns a log of which the input's streams are
prefixes — nothing already recorded is removed or reordered (remaining
conjuncts). -/
theorem C10_logs_append_only :
    (∀ (lg : CoreLog) (v : PyObj),
      set_rlog lg (some v) = ⟨lg.run_log ++ [v], lg.error_log⟩ ∧
      set_elog lg (some v) = ⟨lg.run_log, lg.error_log ++ [v]⟩) ∧
    (∀ (path : String) (listing : List FsNode) (alog : CoreLog)
        (fold file : Option (List String)),
      ∃ st, induct_folder true path true listing alog fold file = .ok st ∧
        alog.run_log <+: st.2.2.run_log ∧ alog.error_log <+: st.2.2.error_log) ∧
    (∀ (fuel : Nat) (fs : RFS) (source destination : String) (alog : CoreLog),
      alog.run_log <+: (rename_file fuel fs source destination alog).2.1.run_log ∧
      alog.error_log <+:
        (rename_file fuel fs source destination alog).2.1.error_log) ∧
    (∀ (fuel : Nat) (db : TagDB) (fs : RFS) (source : String) (readable : Bool)
        (listing : List FsNode) (destination : String) (alog : CoreLog)
        (ofmt : List String) (oracle : List Choice),
      alog.run_log <+:
        (reorder_folder fuel db fs source readable listing destination alog
          ofmt oracle).log.run_log ∧
      alog.error_log <+:
        (reorder_folder fuel db fs source readable listing destination alog
          ofmt oracle).log.error_log) := by
  refine ⟨fun lg v => ⟨rfl, rfl⟩, ?_, rename_file_log_mono, ?_⟩
  · intro path listing alog fold file
    refine ⟨_, rfl, ?_, ?_⟩
    · have hloop := induct_loop_log_mono (sizeOf listing) path listing
        (fold.getD [], file.getD [],
          pushR (pushR alog (.str ("Beginning to induct " ++ path)))
            (.str (toString listing.length ++ " items to induct."))) le_rfl
      refine List.IsPrefix.trans ?_ (hloop.1.trans ?_)
      · simp only [pushR, List.append_assoc]
        exact List.prefix_append _ _
      · simp only [pushR]
        exact List.prefix_append _ _
    · have hloop := induct_loop_log_mono (sizeOf listing) path listing
        (fold.getD [], file.getD [],
          pushR (pushR alog (.str ("Beginning to induct " ++ path)))
            (.str (toString listing.length ++ " items to induct."))) le_rfl
      exact hloop.2
  · intro fuel db fs source readable listing destination alog ofmt oracle
    have hpush : alog.run_log <+:
        (pushR alog (.str "reorder_folder() calling induct_folder().")).run_log := by
      simp only [pushR]
      exact List.prefix_append _ _
    simp only [reorder_folder]
    split
    · exact ⟨hpush, List.prefix_refl _⟩
    · rename_i fo files lgi hind
      have hloop := reorder_loop_log_mono fuel db source destination ofmt files fs
        (pushR lgi (.str (toString files.length ++ " files to re-order.")))
        oracle 0 0
      rcases readable with _ | _
      · exact absurd hind (by simp [induct_folder])
      · have hlgi : (pushR alog
            (.str "reorder_folder() calling induct_folder().")).run_log <+:
              lgi.run_log ∧
            (pushR alog
              (.str "reorder_folder() calling induct_folder().")).error_log <+:
              lgi.error_log := by
          have hmono := induct_loop_log_mono (sizeOf listing) source listing
            (([] : List String), ([] : List String),
              pushR (pushR (pushR alog
                  (.str "reorder_folder() calling induct_folder()."))
                (.str ("Beginning to induct " ++ source)))
              (.str (toString listing.length ++ " items to induct."))) le_rfl
          have hind2 : lgi =
              pushR (induct_child.loop source listing
                (([] : List String), ([] : List String),
                  pushR (pushR (pushR alog
                      (.str "reorder_folder() calling induct_folder()."))
                    (.str ("Beginning to induct " ++ source)))
                  (.str (toString listing.length ++ " items to induct.")))).2.2
                (.str "Finished induction.") := by
            have := hind
            simp only [induct_folder, Bool.not_true, Bool.false_eq_true,
              if_false, Except.ok.injEq, Prod.mk.injEq] at this
            exact this.2.2.symm
          constructor
          · rw [hind2]
            refine List.IsPrefix.trans ?_ (List.IsPrefix.trans hmono.1 ?_)
            · simp only [pushR]
              exact (List.prefix_append _ _).trans (List.prefix_append _ _)
            · simp only [pushR]
              exact List.prefix_append _ _
          · rw [hind2]
            exact hmono.2
        constructor
        · refine hpush.trans (hlgi.1.trans (List.IsPrefix.trans ?_ hloop.1))
          simp only [pushR]
          exact List.prefix_append _ _
        · exact hlgi.2.trans hloop.2
